import Mathlib

/-!
Verification of the keyboard-report state engine (`keyboardio-hid-rs`).

The definitions below are a shallow embedding of the Rust sources:

* `src/keyboard.rs` — shared predicates (`is_printable`, `is_modifier`, key
  bitfield helpers), the `Keyboard` state (current report + last transmitted
  report), `release_all`, the `last_report()` accessor and `keycodes_changed`;
* `src/keyboard/nkro.rs`, `boot.rs`, `media.rs`, `system_control.rs` — the
  per-variant press / release / send-report / end operations;
* `keyboardio-utils/src/lib.rs` — `sort_keycodes` and `xor_swap`.

Machine integers (`u8`, `usize`) are modelled as `Nat`, with bitwise
operations on `Nat`; `u8` bitwise-not is `255 ^^^ ·` (valid for values
`< 256`, which is an invariant of every byte stored in a report).  A Rust
panic (out-of-bounds index, integer underflow) is modelled by an `Option`
result of `none`.  The USB transport sink (`HIDClass::push_input`) is
modelled as a function from the index of the transmission attempt within one
call to `Except Nat Nat` (`.ok n` = success, `.error e` = transport error
`e`).  Each send operation returns, besides its result and the new keyboard
state, the trace of reports handed to the sink, in order.
-/

/-- `KeyboardUsage::KeypadHexadecimal as u8` (HID keyboard usage page). -/
def keypadHexadecimal : Nat := 0xDD

/-- `KeyboardUsage::KeyboardLeftControl as u8`. -/
def keyboardLeftControl : Nat := 0xE0

/-- `KeyboardUsage::KeyboardRightGUI as u8`. -/
def keyboardRightGUI : Nat := 0xE7

/-- `is_printable` from `src/keyboard.rs`: `key <= KeypadHexadecimal`. -/
def is_printable (key : Nat) : Bool := key ≤ keypadHexadecimal

/-- `is_modifier` from `src/keyboard.rs`:
`key >= KeyboardLeftControl && key <= KeyboardRightGUI`. -/
def is_modifier (key : Nat) : Bool :=
  keyboardLeftControl ≤ key && key ≤ keyboardRightGUI

/-- `key_to_index` from `src/keyboard.rs`: `(key / 8) as usize`. -/
def key_to_index (key : Nat) : Nat := key / 8

/-- `key_to_printable_bitfield` from `src/keyboard.rs`: `1 << (key % 8)`. -/
def key_to_printable_bitfield (key : Nat) : Nat := 1 <<< (key % 8)

/-- `key_to_modifier_bitfield` from `src/keyboard.rs`:
`1 << (key - KeyboardLeftControl)`. -/
def key_to_modifier_bitfield (key : Nat) : Nat :=
  1 <<< (key - keyboardLeftControl)

/-- One HID report: the modifier mask byte and the six keycode bytes of
`usbd_hid::descriptor::KeyboardReport` (the `reserved` and host-owned `leds`
bytes carry no engine state and are omitted). -/
structure Report where
  modifier : Nat
  keycodes : List Nat
deriving Repr, DecidableEq

/-- `ZERO_KEYS` from `src/keyboard.rs`: `[0u8; 6]`. -/
def ZERO_KEYS : List Nat := List.replicate 6 0

/-- The keyboard state shared by every variant: the current report being
composed and the snapshot of the last report handed to the transport
(`report` and `last_report` fields of the `Keyboard` structs). -/
structure Keyboard where
  report : Report
  last_report : Report
deriving Repr, DecidableEq

/-- `KeyboardReport::default()`: all bytes zero. -/
def defaultKeyboard : Keyboard :=
  { report := { modifier := 0, keycodes := ZERO_KEYS },
    last_report := { modifier := 0, keycodes := ZERO_KEYS } }

/-- `release_all` from `src/keyboard.rs`: sets the current report's modifier
to 0 and copies `ZERO_KEYS` over its keycodes. -/
def release_all (kb : Keyboard) : Keyboard :=
  { kb with report := { modifier := 0, keycodes := ZERO_KEYS } }

/-- The `last_report()` accessor of `Keyboard` in `src/keyboard.rs`
(lines 295-297).  Its doc comment reads "Gets a reference to the last
keyboard report", but its body returns `&self.report` — the current report.
This definition reproduces the body as written. -/
def lastReportAccessor (kb : Keyboard) : Report := kb.report

/-- `keycodes_changed` from `src/keyboard.rs` (lines 353-365): folds
`changed |= last ^ current` over `self.last_report().keycodes` zipped with
`self.report().keycodes` and tests `changed != 0`.  Because the
`last_report()` accessor returns the current report, both sides of the zip
are the same list. -/
def keycodes_changed (kb : Keyboard) : Bool :=
  (List.zipWith (fun last current => last ^^^ current)
      (lastReportAccessor kb).keycodes kb.report.keycodes).foldl
    (fun changed x => changed ||| x) 0 ≠ 0

/-- `xor_swap` from `keyboardio-utils/src/lib.rs`: three in-place XOR steps,
guarded so that nothing happens when either index is out of bounds or the
two values are already equal. -/
def xor_swap (slice : List Nat) (left_idx right_idx : Nat) : List Nat :=
  if left_idx < slice.length ∧ right_idx < slice.length ∧
      slice.getD left_idx 0 ≠ slice.getD right_idx 0 then
    let s1 := slice.set left_idx (slice.getD left_idx 0 ^^^ slice.getD right_idx 0)
    let s2 := s1.set right_idx (s1.getD right_idx 0 ^^^ s1.getD left_idx 0)
    s2.set left_idx (s2.getD left_idx 0 ^^^ s2.getD right_idx 0)
  else slice

/-- The inner scan of `sort_keycodes`: decrement `back_idx` while
`keys[back_idx] == 0 && back_idx > front_idx`. -/
def findBack (keys : List Nat) (front : Nat) : Nat → Nat
  | back =>
    if h : keys.getD back 0 = 0 ∧ front < back then
      findBack keys front (back - 1)
    else back
termination_by back => back
decreasing_by omega

/-- The outer loop of `sort_keycodes`: while `front < back`, if the front
slot is zero find a non-zero slot from the back and exchange; advance
`front` unconditionally, keeping the moved `back` index. -/
def sortLoop (keys : List Nat) (front back : Nat) : List Nat :=
  if h : front < back then
    if keys.getD front 0 = 0 then
      let b := findBack keys front back
      sortLoop (xor_swap keys front b) (front + 1) b
    else
      sortLoop keys (front + 1) back
  else keys
termination_by back - front
decreasing_by
  · have hfb : ∀ b, findBack keys front b ≤ b := by
      intro b
      induction b using Nat.strong_induction_on with
      | _ b ih =>
        rw [findBack]
        split
        · next hc => exact le_trans (ih (b - 1) (by omega)) (by omega)
        · exact le_refl _
    have := hfb back
    omega
  · omega

/-- `sort_keycodes` from `keyboardio-utils/src/lib.rs`.  For an empty slice
the Rust function evaluates `len - 1` on a `usize` of value `0`, which
panics (directly in a debug build, through the ensuing out-of-bounds index
in a release build); this is modelled as `none`.  Otherwise runs the
two-pointer compaction loop with `front = 0`, `back = len - 1`. -/
def sort_keycodes (keys : List Nat) : Option (List Nat) :=
  if keys.length = 0 then none
  else some (sortLoop keys 0 (keys.length - 1))

/-- The transport sink: maps the index of a `push_input` call, counted
within one engine operation, to that call's result. -/
def Sink : Type := Nat → Except Nat Nat

/-- A sink on which every transmission succeeds. -/
def okSink : Sink := fun _ => Except.ok 0

/-- A sink on which every transmission fails with transport error 7. -/
def failSink : Sink := fun _ => Except.error 7

namespace Nkro

/-- `NKROKeyboard::press` (`src/keyboard/nkro.rs` lines 79-91): printable
keys OR the bit `1 << (key % 8)` into keycode byte `key / 8`; modifier keys
OR their bit into the modifier mask; anything else returns 0.  The Rust
indexing `self.report.keycodes[key_to_index(key)]` panics when the index is
not below the array length; that panic is modelled as `none`. -/
def press (key : Nat) (kb : Keyboard) : Option (Nat × Keyboard) :=
  if is_printable key then
    let i := key_to_index key
    if i < kb.report.keycodes.length then
      some (1, { kb with report := { kb.report with
        keycodes := kb.report.keycodes.set i
          (kb.report.keycodes.getD i 0 ||| key_to_printable_bitfield key) } })
    else none
  else if is_modifier key then
    some (1, { kb with report := { kb.report with
      modifier := kb.report.modifier ||| key_to_modifier_bitfield key } })
  else some (0, kb)

/-- `NKROKeyboard::release` (`src/keyboard/nkro.rs` lines 93-106): printable
keys AND the byte at `key / 8` with the complement of the key's bit (u8
complement = `255 ^^^ ·`); modifier keys clear their mask bit; anything else
returns 0.  Out-of-bounds indexing is modelled as `none`. -/
def release (key : Nat) (kb : Keyboard) : Option (Nat × Keyboard) :=
  if is_printable key then
    let i := key_to_index key
    if i < kb.report.keycodes.length then
      some (1, { kb with report := { kb.report with
        keycodes := kb.report.keycodes.set i
          (kb.report.keycodes.getD i 0 &&& (255 ^^^ key_to_printable_bitfield key)) } })
    else none
  else if is_modifier key then
    some (1, { kb with report := { kb.report with
      modifier := kb.report.modifier &&& (255 ^^^ key_to_modifier_bitfield key) } })
  else some (0, kb)

/-- `NKROKeyboard::is_key_pressed` (`src/keyboard/nkro.rs` lines 164-167):
`is_printable(key) && self.report.keycodes[key / 8] & (1 << key % 8) != 0`.
The out-of-bounds panic of the index is modelled as `none`. -/
def is_key_pressed (key : Nat) (kb : Keyboard) : Option Bool :=
  if is_printable key then
    if key_to_index key < kb.report.keycodes.length then
      some (kb.report.keycodes.getD (key_to_index key) 0 &&&
        key_to_printable_bitfield key ≠ 0)
    else none
  else some false

/-- `NKROKeyboard::was_key_pressed` (`src/keyboard/nkro.rs` lines 169-172):
same test against `last_report`. -/
def was_key_pressed (key : Nat) (kb : Keyboard) : Option Bool :=
  if is_printable key then
    if key_to_index key < kb.last_report.keycodes.length then
      some (kb.last_report.keycodes.getD (key_to_index key) 0 &&&
        key_to_printable_bitfield key ≠ 0)
    else none
  else some false

/-- One entry of the phase-1 loop of `NKROKeyboard::send_report`:
`released_keycodes = *last_key & !key`; when non-zero,
`*last_key &= !released_keycodes`. -/
def phase1Byte (last current : Nat) : Nat :=
  let released := last &&& (255 ^^^ current)
  if released ≠ 0 then last &&& (255 ^^^ released) else last

/-- Whether the phase-1 loop of `NKROKeyboard::send_report` saw any
non-modifier toggle off (`non_modifiers_toggled_off`). -/
def toggledOff (kb : Keyboard) : Bool :=
  (List.zipWith (fun last current => last &&& (255 ^^^ current))
      kb.last_report.keycodes kb.report.keycodes).any (fun x => x ≠ 0)

/-- The third phase of `NKROKeyboard::send_report`: if `keycodes_changed()`
(the inherent method of `Keyboard`, built on the `last_report()` accessor),
copy the current keycodes into `last_report` and push it.  `n` is the index
of the next transmission attempt and `tr` the trace so far. -/
def sendPhase3 (sink : Sink) (kb : Keyboard) (n : Nat) (tr : List Report) :
    Except Nat Unit × Keyboard × List Report :=
  if keycodes_changed kb then
    let kb' := { kb with last_report := { kb.last_report with
      keycodes := kb.report.keycodes } }
    match sink n with
    | Except.error e => (Except.error e, kb', tr ++ [kb'.last_report])
    | Except.ok _ => (Except.ok (), kb', tr ++ [kb'.last_report])
  else (Except.ok (), kb, tr)

/-- `NKROKeyboard::send_report` (`src/keyboard/nkro.rs` lines 108-149).
Each `send_report_unchecked` pushes the *stored previous report*
(`push_input(&self.last_report)`), so every phase first rewrites
`last_report` and then hands it to the sink; `?` aborts with the sink's
error.  Phase 3 is guarded by `self.keycodes_changed()`. -/
def send_report (sink : Sink) (kb : Keyboard) :
    Except Nat Unit × Keyboard × List Report :=
  let old_modifiers := kb.last_report.modifier
  let new_modifiers := kb.report.modifier
  let changed_modifiers := old_modifiers ^^^ new_modifiers
  if changed_modifiers ≠ 0 then
    let kb1 := { kb with last_report := { kb.last_report with
      keycodes := List.zipWith phase1Byte kb.last_report.keycodes kb.report.keycodes } }
    if toggledOff kb then
      match sink 0 with
      | Except.error e => (Except.error e, kb1, [kb1.last_report])
      | Except.ok _ =>
        let kb2 := { kb1 with last_report := { kb1.last_report with
          modifier := new_modifiers } }
        match sink 1 with
        | Except.error e =>
          (Except.error e, kb2, [kb1.last_report, kb2.last_report])
        | Except.ok _ =>
          sendPhase3 sink kb2 2 [kb1.last_report, kb2.last_report]
    else
      let kb2 := { kb1 with last_report := { kb1.last_report with
        modifier := new_modifiers } }
      match sink 0 with
      | Except.error e => (Except.error e, kb2, [kb2.last_report])
      | Except.ok _ => sendPhase3 sink kb2 1 [kb2.last_report]
  else
    sendPhase3 sink kb 0 []

/-- `NKROKeyboard::end` (`src/keyboard/nkro.rs` lines 73-77):
`release_all()` clears the current report, then `send_report_unchecked()?`
pushes `last_report` — the stored previous snapshot, which `release_all`
does not touch. -/
def endReports (sink : Sink) (kb : Keyboard) :
    Except Nat Unit × Keyboard × List Report :=
  let kb1 := release_all kb
  match sink 0 with
  | Except.error e => (Except.error e, kb1, [kb1.last_report])
  | Except.ok _ => (Except.ok (), kb1, [kb1.last_report])

end Nkro

/-- The slot-scan loop shared by the slot-array `press` implementations
(`boot.rs` lines 136-149, `media.rs` lines 90-101, `system_control.rs`
lines 106-118): walk the slots left to right; if a slot already holds `key`
stop with `done`; if a slot is empty write `key` there and stop with
`done`; otherwise keep scanning.  Returns the `done` flag and the updated
slots. -/
def pressSlots (key : Nat) : List Nat → Bool × List Nat
  | [] => (false, [])
  | keycode :: rest =>
    if keycode = key then (true, keycode :: rest)
    else if keycode = 0 then (true, key :: rest)
    else
      let r := pressSlots key rest
      (r.1, keycode :: r.2)

/-- The slot-release body shared by the slot-array `release`
implementations: zero every slot equal to `key`, then compact with
`sort_keycodes` (whose empty-slice panic is propagated as `none`). -/
def releaseSlots (key : Nat) (slots : List Nat) : Option (List Nat) :=
  sort_keycodes (slots.map (fun keycode => if keycode = key then 0 else keycode))

namespace Boot

/-- Modelled from the spec: the `KeyboardOps` trait that
`boot::Keyboard` and `system_control::Keyboard` implement is not declared
anywhere under `src/`; only its per-variant `impl` blocks are.  Its default
`keycodes_changed` method is therefore taken from the spec's simplified
rule — "send the full current report iff its character slots differ from
the last transmitted snapshot" — computed, like the inherent
`Keyboard::keycodes_changed`, as a fold of XORs, but through the variant's
own `last_report()` accessor, which for these two variants returns the real
`last_report` field. -/
def keycodesChanged (kb : Keyboard) : Bool :=
  (List.zipWith (fun last current => last ^^^ current)
      kb.last_report.keycodes kb.report.keycodes).foldl
    (fun changed x => changed ||| x) 0 ≠ 0

/-- `KeyboardOps::press` for the boot keyboard (`src/keyboard/boot.rs`
lines 131-153): modifier keys set their mask bit; *any* other key value is
run through the slot scan — there is no `is_printable` domain check. -/
def press (key : Nat) (kb : Keyboard) : Nat × Keyboard :=
  if is_modifier key then
    (1, { kb with report := { kb.report with
      modifier := kb.report.modifier ||| key_to_modifier_bitfield key } })
  else
    let r := pressSlots key kb.report.keycodes
    (if r.1 then 1 else 0,
      { kb with report := { kb.report with keycodes := r.2 } })

/-- `KeyboardOps::release` for the boot keyboard (`src/keyboard/boot.rs`
lines 155-172): modifier keys clear their mask bit; any other key value is
cleared from every slot and the slots compacted; always returns 1. -/
def release (key : Nat) (kb : Keyboard) : Option (Nat × Keyboard) :=
  if is_modifier key then
    some (1, { kb with report := { kb.report with
      modifier := kb.report.modifier &&& (255 ^^^ key_to_modifier_bitfield key) } })
  else
    match releaseSlots key kb.report.keycodes with
    | none => none
    | some slots =>
      some (1, { kb with report := { kb.report with keycodes := slots } })

/-- `KeyboardOps::is_key_pressed` for the boot keyboard
(`src/keyboard/boot.rs` lines 174-185): scan the current slots for a slot
equal to `key`, then require `is_printable(key)`. -/
def is_key_pressed (key : Nat) (kb : Keyboard) : Bool :=
  kb.report.keycodes.any (fun keycode => keycode = key) && is_printable key

/-- `KeyboardOps::was_key_pressed` for the boot keyboard
(`src/keyboard/boot.rs` lines 187-198): same scan against `last_report`. -/
def was_key_pressed (key : Nat) (kb : Keyboard) : Bool :=
  kb.last_report.keycodes.any (fun keycode => keycode = key) && is_printable key

/-- `KeyboardOps::send_report` for the boot keyboard (`src/keyboard/boot.rs`
lines 110-129): if `keycodes_changed()`, push the *current* report, then —
whatever the push returned — overwrite `last_report` with the current
report and return the push's result; otherwise do nothing. -/
def send_report (sink : Sink) (kb : Keyboard) :
    Except Nat Unit × Keyboard × List Report :=
  if keycodesChanged kb then
    let ret := match sink 0 with
      | Except.error e => Except.error e
      | Except.ok _ => Except.ok ()
    (ret, { kb with last_report := kb.report }, [kb.report])
  else (Except.ok (), kb, [])

/-- `KeyboardOps::end` for the boot keyboard (`src/keyboard/boot.rs`
lines 105-108): `release_all()` then `send_report()`. -/
def endReports (sink : Sink) (kb : Keyboard) :
    Except Nat Unit × Keyboard × List Report :=
  send_report sink (release_all kb)

end Boot

namespace Media

/-- `MediaKeyboard::press` (`src/keyboard/media.rs` lines 85-105): if
`is_media(key)` — membership in the media-key set of the external
`usbd_hid::descriptor::MediaKey` table, taken here as a parameter — run the
slot scan; the result is `done && is_media_key`. -/
def press (isMediaKey : Nat → Bool) (key : Nat) (kb : Keyboard) :
    Nat × Keyboard :=
  if isMediaKey key then
    let r := pressSlots key kb.report.keycodes
    (if r.1 && isMediaKey key then 1 else 0,
      { kb with report := { kb.report with keycodes := r.2 } })
  else (0, kb)

/-- `MediaKeyboard::release` (`src/keyboard/media.rs` lines 107-122): if
`is_media(key)`, clear the key from every slot and compact; always
returns 1. -/
def release (isMediaKey : Nat → Bool) (key : Nat) (kb : Keyboard) :
    Option (Nat × Keyboard) :=
  if isMediaKey key then
    match releaseSlots key kb.report.keycodes with
    | none => none
    | some slots =>
      some (1, { kb with report := { kb.report with keycodes := slots } })
  else some (1, kb)

/-- `MediaKeyboard::send_report` (`src/keyboard/media.rs` lines 72-83).
`media.rs` implements its trait for the `Keyboard` of `src/keyboard.rs`, so
the guard is that type's *inherent* `keycodes_changed` — the one built on
the `last_report()` accessor that returns the current report. -/
def send_report (sink : Sink) (kb : Keyboard) :
    Except Nat Unit × Keyboard × List Report :=
  if keycodes_changed kb then
    let ret := match sink 0 with
      | Except.error e => Except.error e
      | Except.ok _ => Except.ok ()
    (ret, { kb with last_report := kb.report }, [kb.report])
  else (Except.ok (), kb, [])

end Media

namespace SystemControl

/-- `KeyboardOps::press` for the system-control keyboard
(`src/keyboard/system_control.rs` lines 102-122): like the media variant
but with the `is_system_control` membership test (external
`SystemControlKey` table, taken as a parameter). -/
def press (isSysCtlKey : Nat → Bool) (key : Nat) (kb : Keyboard) :
    Nat × Keyboard :=
  if isSysCtlKey key then
    let r := pressSlots key kb.report.keycodes
    (if r.1 && isSysCtlKey key then 1 else 0,
      { kb with report := { kb.report with keycodes := r.2 } })
  else (0, kb)

/-- `KeyboardOps::send_report` for the system-control keyboard
(`src/keyboard/system_control.rs` lines 82-100): same shape as the boot
variant, with this variant's correct `last_report()` accessor feeding the
spec-modelled `keycodes_changed` default method. -/
def send_report (sink : Sink) (kb : Keyboard) :
    Except Nat Unit × Keyboard × List Report :=
  if Boot.keycodesChanged kb then
    let ret := match sink 0 with
      | Except.error e => Except.error e
      | Except.ok _ => Except.ok ()
    (ret, { kb with last_report := kb.report }, [kb.report])
  else (Except.ok (), kb, [])

end SystemControl

/-- `MediaKeyboard::end` (`src/keyboard/media.rs` lines 67-70):
`release_all()` then `send_report()`. -/
def Media.endReports (sink : Sink) (kb : Keyboard) :
    Except Nat Unit × Keyboard × List Report :=
  Media.send_report sink (release_all kb)

/-- `KeyboardOps::end` for the system-control keyboard
(`src/keyboard/system_control.rs` lines 77-80): `release_all()` then
`send_report()`. -/
def SystemControl.endReports (sink : Sink) (kb : Keyboard) :
    Except Nat Unit × Keyboard × List Report :=
  SystemControl.send_report sink (release_all kb)

/-- The NKRO bitfield encoding of the single-key set `{a}`: six bytes, all
zero except the bit `1 << (a % 8)` of byte `a / 8`. -/
def singleKeyBitfield (a : Nat) : List Nat :=
  (List.range 6).map
    (fun i => if i = key_to_index a then key_to_printable_bitfield a else 0)

/-! ### Basic list and bit facts used throughout -/

theorem getD_set_self {l : List Nat} {i : Nat} (h : i < l.length) (a : Nat) :
    (l.set i a).getD i 0 = a := by
  rw [List.getD_eq_getElem _ _ (by simpa using h)]
  simp [List.getElem_set]

theorem getD_set_ne {l : List Nat} {i j : Nat} (h : i ≠ j) (a : Nat) :
    (l.set i a).getD j 0 = l.getD j 0 := by
  by_cases hj : j < l.length
  · rw [List.getD_eq_getElem _ _ (by simpa using hj),
      List.getD_eq_getElem _ _ hj]
    simp [List.getElem_set, h]
  · rw [List.getD_eq_default _ _ (by simpa using Nat.le_of_not_lt hj),
      List.getD_eq_default _ _ (Nat.le_of_not_lt hj)]

theorem set_getD_self {l : List Nat} {i : Nat} (_h : i < l.length) :
    l.set i (l.getD i 0) = l := by
  apply List.ext_getElem
  · simp
  · intro n h1 h2
    rw [List.getElem_set]
    split
    · next he => subst he; rw [List.getD_eq_getElem _ _ h2]
    · rfl

theorem cons_set_perm :
    ∀ (t : List Nat) (k : Nat), k < t.length →
      ∀ a, List.Perm (t.getD k 0 :: t.set k a) (a :: t) := by
  intro t
  induction t with
  | nil => intro k hk; simp at hk
  | cons c rest ih =>
    intro k hk a
    match k with
    | 0 => simpa using List.Perm.swap a c rest
    | k + 1 =>
      have h1 : List.Perm (rest.getD k 0 :: c :: rest.set k a)
          (c :: rest.getD k 0 :: rest.set k a) :=
        List.Perm.swap c (rest.getD k 0) _
      have h2 : List.Perm (c :: rest.getD k 0 :: rest.set k a) (c :: a :: rest) :=
        List.Perm.cons c (ih k (by simpa using hk) a)
      have h3 : List.Perm (c :: a :: rest) (a :: c :: rest) :=
        List.Perm.swap a c rest
      simpa using (h1.trans h2).trans h3

theorem set_set_perm :
    ∀ (l : List Nat) (i j : Nat), i < j → j < l.length →
      List.Perm ((l.set i (l.getD j 0)).set j (l.getD i 0)) l := by
  intro l
  induction l with
  | nil => intro i j _ hj; simp at hj
  | cons c rest ih =>
    intro i j hij hj
    match i, j with
    | 0, j + 1 =>
      have hjr : j < rest.length := by simpa using hj
      simpa using cons_set_perm rest j hjr c
    | i + 1, j + 1 =>
      have := ih i j (by omega) (by simpa using hj)
      simpa using List.Perm.cons c this

theorem testBit_of_lt_256 {b : Nat} (hb : b < 256) {i : Nat} (hi : 8 ≤ i) :
    b.testBit i = false := by
  have h2 : (256 : Nat) ≤ 2 ^ i := by
    calc (256 : Nat) = 2 ^ 8 := by norm_num
    _ ≤ 2 ^ i := Nat.pow_le_pow_right (by norm_num) hi
  exact Nat.testBit_lt_two_pow (lt_of_lt_of_le hb h2)

theorem testBit_255 (i : Nat) : (255 : Nat).testBit i = decide (i < 8) := by
  rcases Nat.lt_or_ge i 8 with h | h
  · interval_cases i <;> decide
  · rw [testBit_of_lt_256 (by norm_num) h]
    simp [Nat.not_lt.mpr h]

theorem land_255_eq {b : Nat} (hb : b < 256) : b &&& 255 = b := by
  apply Nat.eq_of_testBit_eq
  intro i
  rw [Nat.testBit_land, testBit_255]
  rcases Nat.lt_or_ge i 8 with h | h
  · simp [h]
  · simp [testBit_of_lt_256 hb h, Nat.not_lt.mpr h]

theorem land_not_self {b : Nat} (hb : b < 256) : b &&& (255 ^^^ b) = 0 := by
  apply Nat.eq_of_testBit_eq
  intro i
  rw [Nat.testBit_land, Nat.testBit_xor, testBit_255]
  rcases Nat.lt_or_ge i 8 with h | h
  · cases hbi : b.testBit i <;> simp [h, hbi]
  · simp [testBit_of_lt_256 hb h]

theorem lor_land_not {b m : Nat} (hb : b < 256) (hm : m < 256)
    (hdisj : b &&& m = 0) : (b ||| m) &&& (255 ^^^ m) = b := by
  apply Nat.eq_of_testBit_eq
  intro i
  have hd : (b.testBit i && m.testBit i) = false := by
    rw [← Nat.testBit_land, hdisj]
    simp
  rw [Nat.testBit_land, Nat.testBit_lor, Nat.testBit_xor, testBit_255]
  rcases Nat.lt_or_ge i 8 with h | h
  · cases hbi : b.testBit i <;> cases hmi : m.testBit i <;>
      simp_all [h]
  · simp [testBit_of_lt_256 hb h, testBit_of_lt_256 hm h]

/-! ### Properties of the compaction primitive -/

example : sort_keycodes [0, 1, 0, 3, 2, 0] = some [2, 1, 3, 0, 0, 0] := by
  simp [sort_keycodes, sortLoop, findBack, xor_swap]

example : sort_keycodes [1, 0, 0, 3, 0, 2] = some [1, 2, 3, 0, 0, 0] := by
  simp [sort_keycodes, sortLoop, findBack, xor_swap]

example : sort_keycodes [0, 0, 0, 3, 1, 2] = some [2, 1, 3, 0, 0, 0] := by
  simp [sort_keycodes, sortLoop, findBack, xor_swap]

theorem findBack_le (keys : List Nat) (front back : Nat) :
    findBack keys front back ≤ back := by
  induction back using Nat.strong_induction_on with
  | _ back ih =>
    rw [findBack]
    split
    · next hc => exact le_trans (ih (back - 1) (by omega)) (by omega)
    · exact le_refl _

theorem findBack_ge (keys : List Nat) (front back : Nat) (h : front ≤ back) :
    front ≤ findBack keys front back := by
  induction back using Nat.strong_induction_on with
  | _ back ih =>
    rw [findBack]
    split
    · next hc => exact ih (back - 1) (by omega) (by omega)
    · exact h

theorem findBack_zeros (keys : List Nat) (front back : Nat) :
    ∀ j, findBack keys front back < j → j ≤ back → keys.getD j 0 = 0 := by
  induction back using Nat.strong_induction_on with
  | _ back ih =>
    intro j hj1 hj2
    rw [findBack] at hj1
    split at hj1
    · next hc =>
      rcases Nat.lt_or_ge (back - 1) j with h | h
      · have : j = back := by omega
        subst this
        exact hc.1
      · exact ih (back - 1) (by omega) j hj1 h
    · omega

theorem findBack_exit (keys : List Nat) (front back : Nat) (h : front ≤ back) :
    keys.getD (findBack keys front back) 0 ≠ 0 ∨
      findBack keys front back = front := by
  induction back using Nat.strong_induction_on with
  | _ back ih =>
    rw [findBack]
    split
    · next hc => exact ih (back - 1) (by omega) (by omega)
    · next hc =>
      rcases Nat.eq_zero_or_pos (keys.getD back 0) with hz | hz
      · right
        omega
      · left
        omega

theorem findBack_of_all_zero (keys : List Nat) (front back : Nat)
    (h : front ≤ back) (hz : ∀ j, front < j → j ≤ back → keys.getD j 0 = 0) :
    findBack keys front back = front := by
  induction back using Nat.strong_induction_on with
  | _ back ih =>
    rw [findBack]
    split
    · next hc =>
      exact ih (back - 1) (by omega) (by omega)
        (fun j h1 h2 => hz j h1 (by omega))
    · next hc =>
      rcases Nat.eq_or_lt_of_le h with he | hlt
      · omega
      · exact absurd ⟨hz back hlt (le_refl back), hlt⟩ hc

theorem xor_swap_length (slice : List Nat) (i j : Nat) :
    (xor_swap slice i j).length = slice.length := by
  rw [xor_swap]
  split <;> simp

theorem xor_swap_of_eq {slice : List Nat} {i j : Nat}
    (h : slice.getD i 0 = slice.getD j 0) : xor_swap slice i j = slice := by
  rw [xor_swap]
  split
  · next hc => exact absurd h hc.2.2
  · rfl

theorem xor_swap_eq_swap {slice : List Nat} {i j : Nat}
    (hi : i < slice.length) (hj : j < slice.length)
    (hne : slice.getD i 0 ≠ slice.getD j 0) :
    xor_swap slice i j =
      (slice.set i (slice.getD j 0)).set j (slice.getD i 0) := by
  have hij : i ≠ j := fun he => hne (he ▸ rfl)
  set a := slice.getD i 0 with ha
  set b := slice.getD j 0 with hb
  have hj' : j < (slice.set i (a ^^^ b)).length := by simpa using hj
  have h1i : (slice.set i (a ^^^ b)).getD i 0 = a ^^^ b := getD_set_self hi _
  have h1j : (slice.set i (a ^^^ b)).getD j 0 = b := by
    rw [getD_set_ne hij, hb]
  have e1 : b ^^^ (a ^^^ b) = a := by
    rw [Nat.xor_comm a b, ← Nat.xor_assoc, Nat.xor_self, Nat.zero_xor]
  have h2i : ((slice.set i (a ^^^ b)).set j a).getD i 0 = a ^^^ b := by
    rw [getD_set_ne (Ne.symm hij), h1i]
  have h2j : ((slice.set i (a ^^^ b)).set j a).getD j 0 = a := getD_set_self hj' _
  have e3 : a ^^^ b ^^^ a = b := by
    rw [Nat.xor_comm a b, Nat.xor_assoc, Nat.xor_self, Nat.xor_zero]
  calc xor_swap slice i j
      = ((slice.set i (a ^^^ b)).set j
          ((slice.set i (a ^^^ b)).getD j 0 ^^^ (slice.set i (a ^^^ b)).getD i 0)).set i
          (((slice.set i (a ^^^ b)).set j
            ((slice.set i (a ^^^ b)).getD j 0 ^^^ (slice.set i (a ^^^ b)).getD i 0)).getD i 0 ^^^
           ((slice.set i (a ^^^ b)).set j
            ((slice.set i (a ^^^ b)).getD j 0 ^^^ (slice.set i (a ^^^ b)).getD i 0)).getD j 0) := by
        rw [xor_swap, if_pos ⟨hi, hj, hne⟩]
    _ = ((slice.set i (a ^^^ b)).set j a).set i
          (((slice.set i (a ^^^ b)).set j a).getD i 0 ^^^
            ((slice.set i (a ^^^ b)).set j a).getD j 0) := by
        rw [h1i, h1j, e1]
    _ = ((slice.set i (a ^^^ b)).set j a).set i b := by
        rw [h2i, h2j, e3]
    _ = (slice.set i b).set j a := by
        rw [List.set_comm _ _ _ hij, List.set_set, ← List.set_comm _ _ _ hij]

theorem xor_swap_perm (slice : List Nat) (i j : Nat)
    (hi : i < slice.length) (hj : j < slice.length) :
    List.Perm (xor_swap slice i j) slice := by
  by_cases he : slice.getD i 0 = slice.getD j 0
  · rw [xor_swap_of_eq he]
  · rw [xor_swap_eq_swap hi hj he]
    have hij : i ≠ j := fun h => he (h ▸ rfl)
    rcases Nat.lt_or_ge i j with h | h
    · exact set_set_perm slice i j h hj
    · have hji : j < i := by omega
      have := set_set_perm slice j i hji hi
      rwa [List.set_comm _ _ _ (Ne.symm hij)] at this

theorem xor_swap_getD_ne {slice : List Nat} {i j k : Nat}
    (hki : k ≠ i) (hkj : k ≠ j) :
    (xor_swap slice i j).getD k 0 = slice.getD k 0 := by
  rw [xor_swap]
  split
  · rw [getD_set_ne (Ne.symm hki), getD_set_ne (Ne.symm hkj),
      getD_set_ne (Ne.symm hki)]
  · rfl

theorem sortLoop_unfold_zero (keys : List Nat) (front back : Nat)
    (h1 : front < back) (h2 : keys.getD front 0 = 0) :
    sortLoop keys front back =
      sortLoop (xor_swap keys front (findBack keys front back)) (front + 1)
        (findBack keys front back) := by
  rw [sortLoop]
  simp only [dif_pos h1, if_pos h2]

theorem sortLoop_unfold_pos (keys : List Nat) (front back : Nat)
    (h1 : front < back) (h2 : keys.getD front 0 ≠ 0) :
    sortLoop keys front back = sortLoop keys (front + 1) back := by
  rw [sortLoop]
  simp only [dif_pos h1, if_neg h2]

theorem sortLoop_length (keys : List Nat) (front back : Nat) :
    (sortLoop keys front back).length = keys.length := by
  induction keys, front, back using sortLoop.induct with
  | case1 keys front back h1 h2 b ih =>
    rw [sortLoop_unfold_zero keys front back h1 h2]
    rw [ih, xor_swap_length]
  | case2 keys front back h1 h2 ih =>
    rw [sortLoop_unfold_pos keys front back h1 h2]
    exact ih
  | case3 keys front back h1 =>
    rw [sortLoop, dif_neg h1]

theorem sortLoop_perm (keys : List Nat) (front back : Nat)
    (hb : back < keys.length) :
    List.Perm (sortLoop keys front back) keys := by
  induction keys, front, back using sortLoop.induct with
  | case1 keys front back h1 h2 b ih =>
    rw [sortLoop_unfold_zero keys front back h1 h2]
    have hble : findBack keys front back ≤ back := findBack_le keys front back
    have hswap : List.Perm (xor_swap keys front (findBack keys front back)) keys :=
      xor_swap_perm keys front _ (by omega) (by omega)
    have ihp := ih (by rw [xor_swap_length]; omega)
    exact ihp.trans hswap
  | case2 keys front back h1 h2 ih =>
    rw [sortLoop_unfold_pos keys front back h1 h2]
    exact ih hb
  | case3 keys front back h1 =>
    rw [sortLoop, dif_neg h1]

/-- All empty slots of `l` sit after every non-empty slot. -/
def ZerosTrailing (l : List Nat) : Prop :=
  ∀ i j, i ≤ j → j < l.length → l.getD i 0 = 0 → l.getD j 0 = 0

theorem sortLoop_zeros (keys : List Nat) (front back : Nat) :
    back < keys.length →
    (∀ j, back < j → j < keys.length → keys.getD j 0 = 0) →
    (∀ j, j < front → keys.getD j 0 = 0 →
      ∀ i, j ≤ i → i < keys.length → keys.getD i 0 = 0) →
    ZerosTrailing (sortLoop keys front back) := by
  induction keys, front, back using sortLoop.induct with
  | case1 keys front back h1 h2 bLet ih =>
    intro hb invA invB
    rw [sortLoop_unfold_zero keys front back h1 h2]
    set b := findBack keys front back with hbdef
    have hble : b ≤ back := findBack_le keys front back
    have hbge : front ≤ b := findBack_ge keys front back (by omega)
    have hbz : ∀ j, b < j → j ≤ back → keys.getD j 0 = 0 :=
      findBack_zeros keys front back
    have hexit := findBack_exit keys front back (by omega)
    rw [← hbdef] at hexit
    rcases hexit with hbne | hbf
    · -- a genuine exchange: keys[b] ≠ 0 = keys[front]
      have hvne : keys.getD front 0 ≠ keys.getD b 0 := by
        rw [h2]; exact fun he => hbne (Eq.symm he)
      have hfb : front ≠ b := fun he => hvne (he ▸ rfl)
      have hswap := xor_swap_eq_swap (show front < keys.length by omega)
        (show b < keys.length by omega) hvne
      apply ih
      · rw [xor_swap_length]; omega
      · -- invariant A for the new back b
        intro j hj1 hj2
        rw [xor_swap_length] at hj2
        have hjf : j ≠ front := by omega
        have hjb : j ≠ b := by omega
        rw [xor_swap_getD_ne hjf hjb]
        rcases Nat.lt_or_ge back j with h | h
        · exact invA j h hj2
        · exact hbz j hj1 h
      · -- invariant B for the new front front+1
        intro j hj1 hjz i hji hi
        rw [xor_swap_length] at hi
        rcases Nat.eq_or_lt_of_le (Nat.lt_succ_iff.mp hj1) with he | hlt
        · -- j = front: the front slot now holds keys[b] ≠ 0
          exfalso
          rw [he, hswap] at hjz
          have hval : ((keys.set front (keys.getD b 0)).set b
              (keys.getD front 0)).getD front 0 = keys.getD b 0 := by
            rw [getD_set_ne (Ne.symm hfb), getD_set_self (by omega)]
          rw [hval] at hjz
          exact hbne hjz
        · -- j < front: by invariant B, everything from j on is zero,
          -- contradicting keys[b] ≠ 0
          exfalso
          have hjf : j ≠ front := by omega
          have hjb : j ≠ b := by omega
          rw [xor_swap_getD_ne hjf hjb] at hjz
          exact hbne (invB j hlt hjz b (by omega) (by omega))
    · -- no exchange: keys[front] = keys[b] = 0 and everything from front on
      -- is zero
      have hallz : ∀ i, front ≤ i → i < keys.length → keys.getD i 0 = 0 := by
        intro i hi1 hi2
        rcases Nat.eq_or_lt_of_le hi1 with he | hlt
        · rw [← he]; exact h2
        · rcases Nat.lt_or_ge back i with h | h
          · exact invA i h hi2
          · exact hbz i (by omega) h
      have hswap : xor_swap keys front b = keys := by
        apply xor_swap_of_eq
        rw [hbf]
      apply ih
      · rw [hswap]; omega
      · intro j hj1 hj2
        rw [hswap] at hj2 ⊢
        exact hallz j (by omega) hj2
      · intro j hj1 hjz i hji hi
        rw [hswap] at hjz hi ⊢
        rcases Nat.eq_or_lt_of_le (Nat.lt_succ_iff.mp hj1) with he | hlt
        · exact hallz i (by omega) hi
        · exact invB j hlt hjz i hji hi
  | case2 keys front back h1 h2 ih =>
    intro hb invA invB
    rw [sortLoop_unfold_pos keys front back h1 h2]
    apply ih hb invA
    intro j hj1 hjz i hji hi
    rcases Nat.eq_or_lt_of_le (Nat.lt_succ_iff.mp hj1) with he | hlt
    · exact absurd (he ▸ hjz) h2
    · exact invB j hlt hjz i hji hi
  | case3 keys front back h1 =>
    intro hb invA invB
    rw [sortLoop, dif_neg h1]
    intro i j hij hj hiz
    rcases Nat.lt_or_ge i front with h | h
    · exact invB i h hiz j hij hj
    · rcases Nat.eq_or_lt_of_le hij with he | hlt
      · rw [← he]; exact hiz
      · exact invA j (by omega) hj

theorem sortLoop_not_lt (keys : List Nat) (front back : Nat)
    (h : ¬front < back) : sortLoop keys front back = keys := by
  rw [sortLoop, dif_neg h]

theorem sortLoop_of_zerosTrailing (keys : List Nat) (front back : Nat)
    (hb : back < keys.length) (hz : ZerosTrailing keys) :
    sortLoop keys front back = keys := by
  induction keys, front, back using sortLoop.induct with
  | case1 keys front back h1 h2 b ih =>
    have hallz : ∀ j, front < j → j ≤ back → keys.getD j 0 = 0 := by
      intro j hj1 hj2
      exact hz front j (by omega) (by omega) h2
    have hbf : findBack keys front back = front :=
      findBack_of_all_zero keys front back (by omega) hallz
    have hswap : xor_swap keys front (findBack keys front back) = keys := by
      apply xor_swap_of_eq
      rw [hbf]
    rw [sortLoop_unfold_zero keys front back h1 h2, hswap, hbf]
    exact sortLoop_not_lt _ _ _ (by omega)
  | case2 keys front back h1 h2 ih =>
    rw [sortLoop, dif_pos h1, if_neg h2]
    exact ih hb hz
  | case3 keys front back h1 =>
    exact sortLoop_not_lt _ _ _ h1

theorem sort_keycodes_spec (keys : List Nat) (h : keys ≠ []) :
    ∃ l, sort_keycodes keys = some l ∧ l.length = keys.length ∧
      List.Perm l keys ∧ ZerosTrailing l := by
  have hlen : keys.length ≠ 0 := fun he => h (List.eq_nil_of_length_eq_zero he)
  refine ⟨sortLoop keys 0 (keys.length - 1), ?_, ?_, ?_, ?_⟩
  · rw [sort_keycodes, if_neg hlen]
  · exact sortLoop_length keys 0 (keys.length - 1)
  · exact sortLoop_perm keys 0 (keys.length - 1) (by omega)
  · exact sortLoop_zeros keys 0 (keys.length - 1) (by omega)
      (fun j h1 h2 => by omega) (fun j h1 => by omega)

theorem sort_keycodes_of_zerosTrailing (keys : List Nat) (h : keys ≠ [])
    (hz : ZerosTrailing keys) : sort_keycodes keys = some keys := by
  have hlen : keys.length ≠ 0 := fun he => h (List.eq_nil_of_length_eq_zero he)
  rw [sort_keycodes, if_neg hlen,
    sortLoop_of_zerosTrailing keys 0 (keys.length - 1) (by omega) hz]

/-! ### Properties of the slot-scan press and release -/

theorem pressSlots_map_back (key : Nat) :
    ∀ l : List Nat, key ∉ l →
      List.map (fun c => if c = key then 0 else c) (pressSlots key l).2 = l := by
  intro l
  induction l with
  | nil => intro _; rfl
  | cons c rest ih =>
    intro hmem
    have hck : c ≠ key := fun he => hmem (by rw [← he]; exact List.mem_cons_self c rest)
    have hrest : key ∉ rest := fun hm => hmem (List.mem_cons_of_mem c hm)
    rw [pressSlots]
    rw [if_neg hck]
    by_cases hc0 : c = 0
    · rw [if_pos hc0]
      simp only [List.map_cons, if_pos rfl]
      rw [hc0]
      congr 1
      have : ∀ x ∈ rest, (if x = key then 0 else x) = x := by
        intro x hx
        rw [if_neg (fun he => hrest (by rw [← he]; exact hx))]
      calc List.map (fun c => if c = key then 0 else c) rest
          = List.map id rest := List.map_congr_left this
        _ = rest := List.map_id rest
    · rw [if_neg hc0]
      simp only [List.map_cons, if_neg hck]
      rw [ih hrest]

theorem pressSlots_handled_of_zero_mem (key : Nat) :
    ∀ l : List Nat, 0 ∈ l → (pressSlots key l).1 = true := by
  intro l
  induction l with
  | nil => intro h; simp at h
  | cons c rest ih =>
    intro hmem
    rw [pressSlots]
    by_cases hck : c = key
    · rw [if_pos hck]
    · rw [if_neg hck]
      by_cases hc0 : c = 0
      · rw [if_pos hc0]
      · rw [if_neg hc0]
        have : (0 : Nat) ∈ rest := by
          rcases List.mem_cons.mp hmem with he | hm
          · exact absurd he.symm hc0
          · exact hm
        simp only []
        exact ih this

theorem pressSlots_length (key : Nat) :
    ∀ l : List Nat, (pressSlots key l).2.length = l.length := by
  intro l
  induction l with
  | nil => rfl
  | cons c rest ih =>
    rw [pressSlots]
    by_cases hck : c = key
    · rw [if_pos hck]
    · rw [if_neg hck]
      by_cases hc0 : c = 0
      · rw [if_pos hc0]
        simp
      · rw [if_neg hc0]
        simp only [List.length_cons]
        rw [ih]

/-- Round trip for the slot encodings: pressing a key that is not present
and then mapping it back to zero recovers the original slots, and on a
zeros-trailing slot list the compaction is the identity, so `releaseSlots`
undoes `pressSlots`. -/
theorem releaseSlots_pressSlots (key : Nat) (l : List Nat) (hne : l ≠ [])
    (hmem : key ∉ l) (hz : ZerosTrailing l) :
    releaseSlots key (pressSlots key l).2 = some l := by
  rw [releaseSlots, pressSlots_map_back key l hmem]
  exact sort_keycodes_of_zerosTrailing l hne hz

/-! ### Properties of the NKRO send phases -/

theorem phase1Byte_zero {last : Nat} (h : last < 256) :
    Nkro.phase1Byte last 0 = 0 := by
  rw [Nkro.phase1Byte]
  simp only [Nat.xor_zero]
  rw [land_255_eq h]
  by_cases hl : last = 0
  · rw [hl]
    simp
  · rw [if_pos (by simpa using hl)]
    exact land_not_self h

theorem zipWith_phase1_zero :
    ∀ (l : List Nat) (n : Nat), (∀ x ∈ l, x < 256) →
      List.zipWith Nkro.phase1Byte l (List.replicate n 0) =
        List.replicate (min l.length n) 0 := by
  intro l
  induction l with
  | nil => intro n _; simp
  | cons c rest ih =>
    intro n hlt
    match n with
    | 0 => simp
    | n + 1 =>
      rw [List.replicate_succ, List.zipWith_cons_cons,
        phase1Byte_zero (hlt c (List.mem_cons_self c rest)),
        ih n (fun x hx => hlt x (List.mem_cons_of_mem c hx))]
      have hmin : (c :: rest).length ⊓ (n + 1) = rest.length ⊓ n + 1 := by
        simp only [List.length_cons]
        omega
      rw [hmin, List.replicate_succ]

theorem toggledOff_of_nonzero (kb : Keyboard)
    (hcur : kb.report.keycodes = ZERO_KEYS)
    (hlt : ∀ x ∈ kb.last_report.keycodes, x < 256)
    (hlen : kb.last_report.keycodes.length = 6)
    (hnz : ∃ x ∈ kb.last_report.keycodes, x ≠ 0) :
    Nkro.toggledOff kb = true := by
  rw [Nkro.toggledOff, hcur]
  obtain ⟨x, hx, hxnz⟩ := hnz
  rw [List.any_eq_true]
  refine ⟨x, ?_, by simpa using hxnz⟩
  obtain ⟨i, hi, hget⟩ := List.mem_iff_getElem.mp hx
  have hzip : (List.zipWith (fun last current => last &&& (255 ^^^ current))
      kb.last_report.keycodes ZERO_KEYS).length = 6 := by
    simp [ZERO_KEYS, hlen]
  refine List.mem_iff_getElem.mpr ⟨i, by omega, ?_⟩
  rw [List.getElem_zipWith]
  have hilen : i < ZERO_KEYS.length := by
    simp only [ZERO_KEYS, List.length_replicate]
    omega
  have hzk : ZERO_KEYS[i] = 0 := by
    simp only [ZERO_KEYS, List.getElem_replicate]
  rw [hzk, hget]
  simp only [Nat.xor_zero]
  exact land_255_eq (hlt x hx)

/-- The inherent `keycodes_changed` of `Keyboard` compares the current
report's keycodes with themselves (through the miswired `last_report()`
accessor), so it is constantly `false`. -/
theorem keycodes_changed_false (kb : Keyboard) : keycodes_changed kb = false := by
  have hzip : ∀ l : List Nat,
      List.zipWith (fun last current => last ^^^ current) l l =
        List.replicate l.length 0 := by
    intro l
    induction l with
    | nil => rfl
    | cons x t ih => simp [List.zipWith_cons_cons, Nat.xor_self, ih, List.replicate_succ]
  have hfold : ∀ n acc, (List.replicate n (0 : Nat)).foldl
      (fun changed x => changed ||| x) acc = acc := by
    intro n
    induction n with
    | zero => intro acc; rfl
    | succ n ih => intro acc; simp [List.replicate_succ, ih]
  simp [keycodes_changed, lastReportAccessor, hzip, hfold]

/-! ### Claim C3 — NKRO addition-case ordering -/

/-- C3: the claim states that with previous `(M1, {})` and current
`(M2, {B})`, `M1 ≠ M2`, a successful NKRO `send_report` transmits
`(M2, {})` and then `(M2, {B})`.  Evaluating the embedded code at
`M1 = 1`, `M2 = 2`, `B = key 4` (bit `16` of byte `0`) shows that only
`(M2, {})` is handed to the sink: the phase-3 guard is the inherent
`keycodes_changed`, which the miswired `last_report()` accessor makes
constantly false, so the additions report promised by `send_report`'s own
documentation (nkro.rs lines 52-57) is never transmitted and the stored
previous report is left at `(M2, {})` while the current report holds
`(M2, {B})`. -/
theorem c3_nkro_addition_report_lost :
    Nkro.send_report okSink
      { report := { modifier := 2, keycodes := [16, 0, 0, 0, 0, 0] },
        last_report := { modifier := 1, keycodes := ZERO_KEYS } } =
      (Except.ok (),
       { report := { modifier := 2, keycodes := [16, 0, 0, 0, 0, 0] },
         last_report := { modifier := 2, keycodes := ZERO_KEYS } },
       [{ modifier := 2, keycodes := ZERO_KEYS }]) := by
  rfl

/-! ### Claim C4 — NKRO bitfield indexing stays in bounds -/

/-- C4: the claim states that for every printable key the NKRO operations
access the keycode array only at the in-bounds index `key / 8`.  The NKRO
variant stores its bitfield in the six keycode bytes of `KeyboardReport`,
so key `48` — printable, since `48 ≤ 0xDD` — yields index `6` on a
six-entry array: `press`, `release`, `is_key_pressed` and
`was_key_pressed` all hit the out-of-bounds branch (a Rust panic,
modelled as `none`). -/
theorem c4_nkro_press_out_of_bounds :
    is_printable 48 = true ∧
    key_to_index 48 = 6 ∧
    defaultKeyboard.report.keycodes.length = 6 ∧
    Nkro.press 48 defaultKeyboard = none ∧
    Nkro.release 48 defaultKeyboard = none ∧
    Nkro.is_key_pressed 48 defaultKeyboard = none ∧
    Nkro.was_key_pressed 48 defaultKeyboard = none := by
  decide

/-! ### Claim C5 — slot variants send iff keycodes changed -/

/-- C5: the claim states that the boot, media and system-control
`send_report` transmit the full current report exactly when the keycode
slots differ from the last transmitted snapshot.  The media variant's
guard is the inherent `keycodes_changed` of `Keyboard`, whose
`last_report()` accessor returns the current report, so the guard is
constantly false and the media `send_report` never transmits anything —
in particular not on the concrete state whose current slots `[4,0,0,0,0,0]`
differ from the all-zero snapshot. -/
theorem c5_media_send_report_never_transmits :
    (∀ (sink : Sink) (kb : Keyboard),
      Media.send_report sink kb = (Except.ok (), kb, [])) ∧
    (Media.send_report okSink
        { report := { modifier := 0, keycodes := [4, 0, 0, 0, 0, 0] },
          last_report := { modifier := 0, keycodes := ZERO_KEYS } } =
      (Except.ok (),
       { report := { modifier := 0, keycodes := [4, 0, 0, 0, 0, 0] },
         last_report := { modifier := 0, keycodes := ZERO_KEYS } },
       []) ∧
      ([4, 0, 0, 0, 0, 0] : List Nat) ≠ ZERO_KEYS) := by
  constructor
  · intro sink kb
    rw [Media.send_report, if_neg]
    rw [keycodes_changed_false]
    exact fun h => Bool.noConfusion h
  · exact ⟨rfl, by decide⟩

/-! ### Claim C10 — the zero sentinel is reported as pressed -/

/-- C10: on the boot variant, `is_key_pressed(0)` scans the current slots
for a slot equal to `0` and then checks `is_printable(0)`, which holds
since `0 ≤ 0xDD`; hence whenever some current slot is empty the query
returns true — independently, whenever some previous slot is empty,
`was_key_pressed(0)` returns true — even though no key with usage 0 was
ever pressed. -/
theorem c10_boot_zero_sentinel_pressed (kb : Keyboard) :
    (0 ∈ kb.report.keycodes → Boot.is_key_pressed 0 kb = true) ∧
    (0 ∈ kb.last_report.keycodes → Boot.was_key_pressed 0 kb = true) ∧
    is_printable 0 = true := by
  refine ⟨?_, ?_, by decide⟩
  · intro hcur
    rw [Boot.is_key_pressed]
    have hany : kb.report.keycodes.any (fun keycode => keycode = 0) = true :=
      List.any_eq_true.mpr ⟨0, hcur, by simp⟩
    rw [hany]
    decide
  · intro hlast
    rw [Boot.was_key_pressed]
    have hany : kb.last_report.keycodes.any (fun keycode => keycode = 0) = true :=
      List.any_eq_true.mpr ⟨0, hlast, by simp⟩
    rw [hany]
    decide

/-- C10 witness: each implication applied on its own — a state whose
current slots are full but whose previous report has empty slots (only
`was_key_pressed(0)` is claimed there), the mirror-image state, and the
default keyboard. -/
theorem c10_witness :
    Boot.was_key_pressed 0
      { report := { modifier := 0, keycodes := [1, 2, 3, 4, 5, 6] },
        last_report := { modifier := 0, keycodes := ZERO_KEYS } } = true ∧
    Boot.is_key_pressed 0
      { report := { modifier := 0, keycodes := ZERO_KEYS },
        last_report := { modifier := 0, keycodes := [1, 2, 3, 4, 5, 6] } } = true ∧
    Boot.is_key_pressed 0 defaultKeyboard = true ∧
    is_printable 0 = true :=
  ⟨(c10_boot_zero_sentinel_pressed
      { report := { modifier := 0, keycodes := [1, 2, 3, 4, 5, 6] },
        last_report := { modifier := 0, keycodes := ZERO_KEYS } }).2.1 (by decide),
   (c10_boot_zero_sentinel_pressed
      { report := { modifier := 0, keycodes := ZERO_KEYS },
        last_report := { modifier := 0, keycodes := [1, 2, 3, 4, 5, 6] } }).1 (by decide),
   (c10_boot_zero_sentinel_pressed defaultKeyboard).1 (by decide),
   (c10_boot_zero_sentinel_pressed defaultKeyboard).2.2⟩

/-! ### Claim C6 — out-of-domain press is rejected -/

/-- C6 counterexample: the claim states that on every variant a
non-modifier key outside the variant's domain is rejected with `0` and no
state change.  Key `232` (`0xE8`) is neither printable nor a modifier,
yet the boot `press` — which checks only the modifier range — stores it
into the first empty slot and returns `1`. -/
theorem c6_counterexample_boot_accepts_out_of_domain :
    is_printable 232 = false ∧
    is_modifier 232 = false ∧
    Boot.press 232 defaultKeyboard =
      (1, { report := { modifier := 0, keycodes := [232, 0, 0, 0, 0, 0] },
            last_report := { modifier := 0, keycodes := ZERO_KEYS } }) := by
  decide

/-- C6 amended: the media, system-control and NKRO variants reject an
out-of-domain non-modifier key with `0` and no state change; the boot
variant performs no domain check beyond the modifier range, and reports
any other key value handled whenever a slot already matches it or an
empty slot exists. -/
theorem c6_domain_membership_amended :
    (∀ (isMediaKey : Nat → Bool) (key : Nat) (kb : Keyboard),
      isMediaKey key = false → Media.press isMediaKey key kb = (0, kb)) ∧
    (∀ (isSysCtlKey : Nat → Bool) (key : Nat) (kb : Keyboard),
      isSysCtlKey key = false →
        SystemControl.press isSysCtlKey key kb = (0, kb)) ∧
    (∀ (key : Nat) (kb : Keyboard),
      is_printable key = false → is_modifier key = false →
        Nkro.press key kb = some (0, kb)) ∧
    (∀ (key : Nat) (kb : Keyboard),
      is_modifier key = false → 0 ∈ kb.report.keycodes →
        (Boot.press key kb).1 = 1) := by
  refine ⟨?_, ?_, ?_, ?_⟩
  · intro isMediaKey key kb h
    rw [Media.press, if_neg (fun hc => Bool.noConfusion (h ▸ hc))]
  · intro isSysCtlKey key kb h
    rw [SystemControl.press, if_neg (fun hc => Bool.noConfusion (h ▸ hc))]
  · intro key kb h1 h2
    rw [Nkro.press, if_neg (fun hc => Bool.noConfusion (h1 ▸ hc)),
      if_neg (fun hc => Bool.noConfusion (h2 ▸ hc))]
  · intro key kb h1 h2
    have hdone := pressSlots_handled_of_zero_mem key kb.report.keycodes h2
    rw [Boot.press, if_neg (fun hc => Bool.noConfusion (h1 ▸ hc))]
    simp [hdone]

/-- C6 witness: the amended statement applied at concrete inputs — a
non-member key `5` for the slot-set variants, the non-printable
non-modifier key `240` for NKRO, and key `232` on the default boot
state. -/
theorem c6_witness :
    Media.press (fun _ => false) 5 defaultKeyboard = (0, defaultKeyboard) ∧
    SystemControl.press (fun _ => false) 5 defaultKeyboard = (0, defaultKeyboard) ∧
    Nkro.press 240 defaultKeyboard = some (0, defaultKeyboard) ∧
    (Boot.press 232 defaultKeyboard).1 = 1 :=
  ⟨c6_domain_membership_amended.1 (fun _ => false) 5 defaultKeyboard rfl,
   c6_domain_membership_amended.2.1 (fun _ => false) 5 defaultKeyboard rfl,
   c6_domain_membership_amended.2.2.1 240 defaultKeyboard (by decide) (by decide),
   c6_domain_membership_amended.2.2.2 232 defaultKeyboard (by decide) (by decide)⟩

/-! ### Claim C1 — the previous snapshot on transport failure -/

theorem sendPhase3_ok (sink : Sink) (kb : Keyboard) (n : Nat)
    (tr : List Report) : Nkro.sendPhase3 sink kb n tr = (Except.ok (), kb, tr) := by
  rw [Nkro.sendPhase3, if_neg]
  rw [keycodes_changed_false]
  exact fun h => Bool.noConfusion h

/-- C1 counterexample: the claim states that on transport failure the
previous snapshot still equals the last successfully transmitted report.
On the NKRO state with previous `(1, {key 4})` and current `(2, {})`, with
the sink failing on the very first push, `send_report` returns the error —
but the previous snapshot's keycodes were already cleared *before* the
failed push, so it no longer equals the report the host last received. -/
theorem c1_counterexample_failure_mutates_snapshot :
    Nkro.send_report failSink
      { report := { modifier := 2, keycodes := ZERO_KEYS },
        last_report := { modifier := 1, keycodes := [16, 0, 0, 0, 0, 0] } } =
      (Except.error 7,
       { report := { modifier := 2, keycodes := ZERO_KEYS },
         last_report := { modifier := 1, keycodes := ZERO_KEYS } },
       [{ modifier := 1, keycodes := ZERO_KEYS }]) ∧
    ({ modifier := 1, keycodes := ZERO_KEYS } : Report) ≠
      { modifier := 1, keycodes := [16, 0, 0, 0, 0, 0] } := by
  exact ⟨rfl, by decide⟩

/-- C1 amended: every variant rewrites the stored previous report (or, for
the slot variants, commits it wholesale) *before* the outcome of the
transmission is known.  On failure the call returns the sink's error with
the previous snapshot equal to the report whose transmission was attempted
and failed — the last entry of the transmission trace for NKRO, and the
full current report for the boot and system-control variants — not
necessarily the last report that was successfully transmitted.  The media
variant never transmits at all (see C5), so it never fails. -/
theorem c1_snapshot_equals_failed_report :
    (∀ (sink : Sink) (kb kb' : Keyboard) (e : Nat) (tr : List Report),
      Nkro.send_report sink kb = (Except.error e, kb', tr) →
        tr.getLast? = some kb'.last_report) ∧
    (∀ (sink : Sink) (kb kb' : Keyboard) (e : Nat) (tr : List Report),
      Boot.send_report sink kb = (Except.error e, kb', tr) →
        kb'.last_report = kb.report ∧ tr = [kb.report]) ∧
    (∀ (sink : Sink) (kb kb' : Keyboard) (e : Nat) (tr : List Report),
      SystemControl.send_report sink kb = (Except.error e, kb', tr) →
        kb'.last_report = kb.report ∧ tr = [kb.report]) ∧
    (∀ (sink : Sink) (kb : Keyboard),
      Media.send_report sink kb = (Except.ok (), kb, [])) := by
  refine ⟨?_, ?_, ?_, ?_⟩
  · intro sink kb kb' e tr h
    rw [Nkro.send_report] at h
    by_cases hch : (kb.last_report.modifier ^^^ kb.report.modifier) ≠ 0
    · rw [if_pos hch] at h
      by_cases hto : Nkro.toggledOff kb = true
      · rw [if_pos hto] at h
        cases hs0 : sink 0 with
        | error e0 =>
          simp only [hs0, Prod.mk.injEq] at h
          rw [← h.2.1, ← h.2.2]
          rfl
        | ok v0 =>
          simp only [hs0] at h
          cases hs1 : sink 1 with
          | error e1 =>
            simp only [hs1, Prod.mk.injEq] at h
            rw [← h.2.1, ← h.2.2]
            rfl
          | ok v1 =>
            simp only [hs1, sendPhase3_ok, Prod.mk.injEq] at h
            exact absurd h.1 (fun hc => Except.noConfusion hc)
      · rw [if_neg hto] at h
        cases hs0 : sink 0 with
        | error e0 =>
          simp only [hs0, Prod.mk.injEq] at h
          rw [← h.2.1, ← h.2.2]
          rfl
        | ok v0 =>
          simp only [hs0, sendPhase3_ok, Prod.mk.injEq] at h
          exact absurd h.1 (fun hc => Except.noConfusion hc)
    · rw [if_neg hch] at h
      rw [sendPhase3_ok] at h
      simp only [Prod.mk.injEq] at h
      exact absurd h.1 (fun hc => Except.noConfusion hc)
  · intro sink kb kb' e tr h
    rw [Boot.send_report] at h
    by_cases hkc : Boot.keycodesChanged kb = true
    · rw [if_pos hkc] at h
      cases hs0 : sink 0 with
      | error e0 =>
        simp only [hs0, Prod.mk.injEq] at h
        exact ⟨by rw [← h.2.1], by rw [← h.2.2]⟩
      | ok v0 =>
        simp only [hs0, Prod.mk.injEq] at h
        exact absurd h.1 (fun hc => Except.noConfusion hc)
    · rw [if_neg hkc] at h
      simp only [Prod.mk.injEq] at h
      exact absurd h.1 (fun hc => Except.noConfusion hc)
  · intro sink kb kb' e tr h
    rw [SystemControl.send_report] at h
    by_cases hkc : Boot.keycodesChanged kb = true
    · rw [if_pos hkc] at h
      cases hs0 : sink 0 with
      | error e0 =>
        simp only [hs0, Prod.mk.injEq] at h
        exact ⟨by rw [← h.2.1], by rw [← h.2.2]⟩
      | ok v0 =>
        simp only [hs0, Prod.mk.injEq] at h
        exact absurd h.1 (fun hc => Except.noConfusion hc)
    · rw [if_neg hkc] at h
      simp only [Prod.mk.injEq] at h
      exact absurd h.1 (fun hc => Except.noConfusion hc)
  · intro sink kb
    rw [Media.send_report, if_neg]
    rw [keycodes_changed_false]
    exact fun h => Bool.noConfusion h

/-- C1 witness: the amended statement applied to the concrete failing NKRO
run of the counterexample and to a boot run whose single transmission
fails. -/
theorem c1_witness :
    ([({ modifier := 1, keycodes := ZERO_KEYS } : Report)].getLast? =
      some ({ modifier := 1, keycodes := ZERO_KEYS } : Report)) ∧
    (({ report := { modifier := 0, keycodes := [4, 0, 0, 0, 0, 0] },
        last_report := { modifier := 0, keycodes := [4, 0, 0, 0, 0, 0] } } :
          Keyboard).last_report =
        ({ modifier := 0, keycodes := [4, 0, 0, 0, 0, 0] } : Report) ∧
      [({ modifier := 0, keycodes := [4, 0, 0, 0, 0, 0] } : Report)] =
        [({ modifier := 0, keycodes := [4, 0, 0, 0, 0, 0] } : Report)]) :=
  ⟨c1_snapshot_equals_failed_report.1 failSink
      { report := { modifier := 2, keycodes := ZERO_KEYS },
        last_report := { modifier := 1, keycodes := [16, 0, 0, 0, 0, 0] } }
      { report := { modifier := 2, keycodes := ZERO_KEYS },
        last_report := { modifier := 1, keycodes := ZERO_KEYS } }
      7 [{ modifier := 1, keycodes := ZERO_KEYS }] rfl,
   c1_snapshot_equals_failed_report.2.1 failSink
      { report := { modifier := 0, keycodes := [4, 0, 0, 0, 0, 0] },
        last_report := { modifier := 0, keycodes := ZERO_KEYS } }
      { report := { modifier := 0, keycodes := [4, 0, 0, 0, 0, 0] },
        last_report := { modifier := 0, keycodes := [4, 0, 0, 0, 0, 0] } }
      7 [{ modifier := 0, keycodes := [4, 0, 0, 0, 0, 0] }] rfl⟩

/-! ### Claim C9 — end() clears state and transmits it -/

/-- C9 counterexample: the claim states that after a successful `end()`
both the report delivered to the host and the previous snapshot are the
empty report.  On the NKRO variant, `end` clears the current report but
then pushes `last_report` — the untouched previous snapshot `(1, {key 2})`
— so the host receives a non-empty report and the snapshot stays
non-empty. -/
theorem c9_counterexample_end_sends_stale_snapshot :
    Nkro.endReports okSink
      { report := { modifier := 2, keycodes := [16, 0, 0, 0, 0, 0] },
        last_report := { modifier := 1, keycodes := [4, 0, 0, 0, 0, 0] } } =
      (Except.ok (),
       { report := { modifier := 0, keycodes := ZERO_KEYS },
         last_report := { modifier := 1, keycodes := [4, 0, 0, 0, 0, 0] } },
       [{ modifier := 1, keycodes := [4, 0, 0, 0, 0, 0] }]) ∧
    ({ modifier := 1, keycodes := [4, 0, 0, 0, 0, 0] } : Report) ≠
      { modifier := 0, keycodes := ZERO_KEYS } := by
  exact ⟨rfl, by decide⟩

/-- C9 amended: `end()` clears the current report on every variant, but
what reaches the host differs from the claim.  The NKRO variant pushes the
*previous snapshot unchanged* (one transmission of `last_report`, which is
not updated); the media variant transmits nothing at all; the boot and
system-control variants transmit the cleared report — updating the
snapshot to it — only when their keycode comparison against the previous
snapshot reports a change, and otherwise transmit nothing. -/
theorem c9_end_behaviour_amended :
    (∀ (sink : Sink) (kb : Keyboard) (v : Nat), sink 0 = Except.ok v →
      Nkro.endReports sink kb =
        (Except.ok (),
         { report := { modifier := 0, keycodes := ZERO_KEYS },
           last_report := kb.last_report },
         [kb.last_report])) ∧
    (∀ (sink : Sink) (kb : Keyboard),
      Media.endReports sink kb = (Except.ok (), release_all kb, [])) ∧
    (∀ (sink : Sink) (kb : Keyboard),
      Boot.keycodesChanged (release_all kb) = false →
        Boot.endReports sink kb = (Except.ok (), release_all kb, [])) ∧
    (∀ (sink : Sink) (kb : Keyboard) (v : Nat), sink 0 = Except.ok v →
      Boot.keycodesChanged (release_all kb) = true →
        Boot.endReports sink kb =
          (Except.ok (),
           { report := { modifier := 0, keycodes := ZERO_KEYS },
             last_report := { modifier := 0, keycodes := ZERO_KEYS } },
           [{ modifier := 0, keycodes := ZERO_KEYS }])) ∧
    (∀ (sink : Sink) (kb : Keyboard),
      Boot.keycodesChanged (release_all kb) = false →
        SystemControl.endReports sink kb = (Except.ok (), release_all kb, [])) ∧
    (∀ (sink : Sink) (kb : Keyboard) (v : Nat), sink 0 = Except.ok v →
      Boot.keycodesChanged (release_all kb) = true →
        SystemControl.endReports sink kb =
          (Except.ok (),
           { report := { modifier := 0, keycodes := ZERO_KEYS },
             last_report := { modifier := 0, keycodes := ZERO_KEYS } },
           [{ modifier := 0, keycodes := ZERO_KEYS }])) := by
  refine ⟨?_, ?_, ?_, ?_, ?_, ?_⟩
  · intro sink kb v hs
    rw [Nkro.endReports, hs]
    rfl
  · intro sink kb
    rw [Media.endReports, Media.send_report, if_neg]
    rw [keycodes_changed_false]
    exact fun h => Bool.noConfusion h
  · intro sink kb hkc
    rw [Boot.endReports, Boot.send_report, if_neg (fun hc => Bool.noConfusion (hkc ▸ hc))]
  · intro sink kb v hs hkc
    rw [Boot.endReports, Boot.send_report, if_pos hkc, hs]
    rfl
  · intro sink kb hkc
    rw [SystemControl.endReports, SystemControl.send_report,
      if_neg (fun hc => Bool.noConfusion (hkc ▸ hc))]
  · intro sink kb v hs hkc
    rw [SystemControl.endReports, SystemControl.send_report, if_pos hkc, hs]
    rfl

/-- C9 witness: the amended statement applied at concrete states — the
stale-snapshot NKRO run, a media `end`, and the two boot and two
system-control cases. -/
theorem c9_witness :
    Nkro.endReports okSink
      { report := { modifier := 2, keycodes := [16, 0, 0, 0, 0, 0] },
        last_report := { modifier := 1, keycodes := [4, 0, 0, 0, 0, 0] } } =
      (Except.ok (),
       { report := { modifier := 0, keycodes := ZERO_KEYS },
         last_report := { modifier := 1, keycodes := [4, 0, 0, 0, 0, 0] } },
       [{ modifier := 1, keycodes := [4, 0, 0, 0, 0, 0] }]) ∧
    Media.endReports okSink defaultKeyboard =
      (Except.ok (), release_all defaultKeyboard, []) ∧
    Boot.endReports okSink defaultKeyboard =
      (Except.ok (), release_all defaultKeyboard, []) ∧
    Boot.endReports okSink
      { report := { modifier := 0, keycodes := ZERO_KEYS },
        last_report := { modifier := 0, keycodes := [4, 0, 0, 0, 0, 0] } } =
      (Except.ok (),
       { report := { modifier := 0, keycodes := ZERO_KEYS },
         last_report := { modifier := 0, keycodes := ZERO_KEYS } },
       [{ modifier := 0, keycodes := ZERO_KEYS }]) ∧
    SystemControl.endReports okSink defaultKeyboard =
      (Except.ok (), release_all defaultKeyboard, []) ∧
    SystemControl.endReports okSink
      { report := { modifier := 0, keycodes := ZERO_KEYS },
        last_report := { modifier := 0, keycodes := [4, 0, 0, 0, 0, 0] } } =
      (Except.ok (),
       { report := { modifier := 0, keycodes := ZERO_KEYS },
         last_report := { modifier := 0, keycodes := ZERO_KEYS } },
       [{ modifier := 0, keycodes := ZERO_KEYS }]) :=
  ⟨c9_end_behaviour_amended.1 okSink
      { report := { modifier := 2, keycodes := [16, 0, 0, 0, 0, 0] },
        last_report := { modifier := 1, keycodes := [4, 0, 0, 0, 0, 0] } } 0 rfl,
   c9_end_behaviour_amended.2.1 okSink defaultKeyboard,
   c9_end_behaviour_amended.2.2.1 okSink defaultKeyboard (by rfl),
   c9_end_behaviour_amended.2.2.2.1 okSink
      { report := { modifier := 0, keycodes := ZERO_KEYS },
        last_report := { modifier := 0, keycodes := [4, 0, 0, 0, 0, 0] } } 0 rfl
      (by rfl),
   c9_end_behaviour_amended.2.2.2.2.1 okSink defaultKeyboard (by rfl),
   c9_end_behaviour_amended.2.2.2.2.2 okSink
      { report := { modifier := 0, keycodes := ZERO_KEYS },
        last_report := { modifier := 0, keycodes := [4, 0, 0, 0, 0, 0] } } 0 rfl
      (by rfl)⟩

/-! ### Claim C7 — correctness of the compaction primitive -/

/-- C7 counterexample: the claim quantifies over *every* fixed-size byte
array, but on the empty array the Rust `sort_keycodes` computes
`len - 1 = 0usize - 1` and panics (underflow in a debug build, the ensuing
out-of-bounds index in a release build); the model returns `none` instead
of an array. -/
theorem c7_counterexample_empty_array :
    sort_keycodes ([] : List Nat) = none := by
  rfl

/-- C7 amended: for every *non-empty* byte array, `sort_keycodes`
terminates normally and produces an array of the same length, with the
same multiset of non-zero values, the same number of zeros, and every
zero entry after every non-zero entry. -/
theorem c7_compaction_amended (keys : List Nat) (h : keys ≠ []) :
    ∃ l, sort_keycodes keys = some l ∧
      l.length = keys.length ∧
      List.Perm (l.filter (fun x => x ≠ 0)) (keys.filter (fun x => x ≠ 0)) ∧
      l.count 0 = keys.count 0 ∧
      ZerosTrailing l := by
  obtain ⟨l, h1, h2, h3, h4⟩ := sort_keycodes_spec keys h
  exact ⟨l, h1, h2, h3.filter _, h3.count_eq 0, h4⟩

/-- C7 witness: the amended statement applied to the example array of the
crate's own test, `[0,1,0,3,2,0]`. -/
theorem c7_witness :
    (([0, 1, 0, 3, 2, 0] : List Nat) ≠ []) ∧
    (∃ l, sort_keycodes [0, 1, 0, 3, 2, 0] = some l ∧
      l.length = ([0, 1, 0, 3, 2, 0] : List Nat).length ∧
      List.Perm (l.filter (fun x => x ≠ 0))
        (([0, 1, 0, 3, 2, 0] : List Nat).filter (fun x => x ≠ 0)) ∧
      l.count 0 = ([0, 1, 0, 3, 2, 0] : List Nat).count 0 ∧
      ZerosTrailing l) :=
  ⟨by decide, c7_compaction_amended [0, 1, 0, 3, 2, 0] (by decide)⟩

/-! ### Claim C2 — NKRO removal-case ordering -/

theorem key_to_printable_bitfield_lt_256 (a : Nat) :
    key_to_printable_bitfield a < 256 := by
  rw [key_to_printable_bitfield, Nat.shiftLeft_eq, one_mul]
  have hm : a % 8 < 8 := Nat.mod_lt a (by norm_num)
  calc 2 ^ (a % 8) ≤ 2 ^ 7 := Nat.pow_le_pow_right (by norm_num) (by omega)
  _ < 256 := by norm_num

theorem key_to_printable_bitfield_ne_zero (a : Nat) :
    key_to_printable_bitfield a ≠ 0 := by
  rw [key_to_printable_bitfield, Nat.shiftLeft_eq, one_mul]
  have : 0 < 2 ^ (a % 8) := Nat.pos_pow_of_pos _ (by norm_num)
  omega

theorem singleKeyBitfield_length (a : Nat) : (singleKeyBitfield a).length = 6 := by
  rw [singleKeyBitfield]
  simp

theorem singleKeyBitfield_mem_lt (a : Nat) :
    ∀ x ∈ singleKeyBitfield a, x < 256 := by
  intro x hx
  rw [singleKeyBitfield] at hx
  obtain ⟨i, _, hxe⟩ := List.mem_map.mp hx
  by_cases hi : i = key_to_index a
  · rw [if_pos hi] at hxe
    rw [← hxe]
    exact key_to_printable_bitfield_lt_256 a
  · rw [if_neg hi] at hxe
    omega

theorem singleKeyBitfield_nonzero (a : Nat) (ha : a < 48) :
    ∃ x ∈ singleKeyBitfield a, x ≠ 0 := by
  refine ⟨key_to_printable_bitfield a, ?_, key_to_printable_bitfield_ne_zero a⟩
  rw [singleKeyBitfield]
  apply List.mem_map.mpr
  refine ⟨key_to_index a, List.mem_range.mpr ?_, by rw [if_pos rfl]⟩
  rw [key_to_index]
  omega

theorem singleKeyBitfield_ne_zero_keys (a : Nat) (ha : a < 48) :
    singleKeyBitfield a ≠ ZERO_KEYS := by
  intro he
  obtain ⟨x, hx, hxnz⟩ := singleKeyBitfield_nonzero a ha
  rw [he, ZERO_KEYS] at hx
  exact hxnz (List.eq_of_mem_replicate hx)

/-- C2: with previous report `(M1, {A})` and current report `(M2, {})`,
`M1 ≠ M2` and `A` a key the six-byte bitfield can represent, a successful
NKRO `send_report` hands the sink exactly `(M1, {})` and then `(M2, {})`,
in that order, and no transmitted report pairs `M2` with the key set
`{A}`; the stored previous report ends equal to the current report. -/
theorem c2_nkro_removal_order (m1 m2 a : Nat) (sink : Sink) (s0 s1 : Nat)
    (hm : m1 ≠ m2) (ha : a < 48)
    (h0 : sink 0 = Except.ok s0) (h1 : sink 1 = Except.ok s1) :
    Nkro.send_report sink
      { report := { modifier := m2, keycodes := ZERO_KEYS },
        last_report := { modifier := m1, keycodes := singleKeyBitfield a } } =
      (Except.ok (),
       { report := { modifier := m2, keycodes := ZERO_KEYS },
         last_report := { modifier := m2, keycodes := ZERO_KEYS } },
       [{ modifier := m1, keycodes := ZERO_KEYS },
        { modifier := m2, keycodes := ZERO_KEYS }]) ∧
    ({ modifier := m2, keycodes := singleKeyBitfield a } : Report) ∉
      [({ modifier := m1, keycodes := ZERO_KEYS } : Report),
       { modifier := m2, keycodes := ZERO_KEYS }] := by
  have hch : m1 ^^^ m2 ≠ 0 := fun hc => hm (Nat.xor_eq_zero.mp hc)
  have hto : Nkro.toggledOff
      { report := { modifier := m2, keycodes := ZERO_KEYS },
        last_report := { modifier := m1, keycodes := singleKeyBitfield a } } = true :=
    toggledOff_of_nonzero _ rfl (singleKeyBitfield_mem_lt a)
      (singleKeyBitfield_length a) (singleKeyBitfield_nonzero a ha)
  have hphase1 : List.zipWith Nkro.phase1Byte (singleKeyBitfield a) ZERO_KEYS =
      ZERO_KEYS := by
    rw [ZERO_KEYS]
    rw [zipWith_phase1_zero _ 6 (singleKeyBitfield_mem_lt a),
      singleKeyBitfield_length]
    norm_num
  constructor
  · rw [Nkro.send_report]
    simp only [hphase1, hto, hch, h0, h1, sendPhase3_ok, if_pos, if_true, ne_eq,
      not_false_eq_true]
  · intro hmem
    rcases List.mem_cons.mp hmem with he | hmem2
    · exact hm (congrArg Report.modifier he).symm
    · rcases List.mem_cons.mp hmem2 with he | hmem3
      · exact singleKeyBitfield_ne_zero_keys a ha (congrArg Report.keycodes he)
      · simp at hmem3

/-- C2 witness: the removal ordering at `M1 = 1`, `M2 = 2`, `A = key 4`,
with an always-succeeding sink. -/
theorem c2_witness :
    Nkro.send_report okSink
      { report := { modifier := 2, keycodes := ZERO_KEYS },
        last_report := { modifier := 1, keycodes := singleKeyBitfield 4 } } =
      (Except.ok (),
       { report := { modifier := 2, keycodes := ZERO_KEYS },
         last_report := { modifier := 2, keycodes := ZERO_KEYS } },
       [{ modifier := 1, keycodes := ZERO_KEYS },
        { modifier := 2, keycodes := ZERO_KEYS }]) ∧
    ({ modifier := 2, keycodes := singleKeyBitfield 4 } : Report) ∉
      [({ modifier := 1, keycodes := ZERO_KEYS } : Report),
       { modifier := 2, keycodes := ZERO_KEYS }] :=
  c2_nkro_removal_order 1 2 4 okSink 0 0 (by decide) (by decide) rfl rfl

/-! ### Claim C8 — press / release round trip -/

theorem zerosTrailing_zero_keys : ZerosTrailing ZERO_KEYS := by
  intro i j _ hj _
  rw [ZERO_KEYS] at hj ⊢
  rw [List.getD_eq_getElem _ _ (by simpa using hj)]
  simp only [List.getElem_replicate]

theorem key_to_modifier_bitfield_lt_256 (key : Nat)
    (hk : is_modifier key = true) : key_to_modifier_bitfield key < 256 := by
  rw [is_modifier] at hk
  simp only [keyboardLeftControl, keyboardRightGUI, Bool.and_eq_true,
    decide_eq_true_eq] at hk
  rw [key_to_modifier_bitfield, Nat.shiftLeft_eq, one_mul, keyboardLeftControl]
  calc 2 ^ (key - 224) ≤ 2 ^ 7 := Nat.pow_le_pow_right (by norm_num) (by omega)
  _ < 256 := by norm_num

theorem boot_press_nonmod (key : Nat) (kb : Keyboard)
    (hnm : is_modifier key = false) :
    (Boot.press key kb).2 =
      { kb with report := { kb.report with
          keycodes := (pressSlots key kb.report.keycodes).2 } } := by
  rw [Boot.press, if_neg (fun hc => Bool.noConfusion (hnm ▸ hc))]

theorem boot_release_restore (key : Nat) (kb : Keyboard)
    (hnm : is_modifier key = false)
    (hne : kb.report.keycodes ≠ [])
    (hmem : key ∉ kb.report.keycodes)
    (hz : ZerosTrailing kb.report.keycodes) :
    (Boot.release key (Boot.press key kb).2).map (fun r => r.2) = some kb := by
  rw [boot_press_nonmod key kb hnm]
  rw [Boot.release, if_neg (fun hc => Bool.noConfusion (hnm ▸ hc))]
  have hrel : releaseSlots key
      (pressSlots key kb.report.keycodes).2 = some kb.report.keycodes :=
    releaseSlots_pressSlots key kb.report.keycodes hne hmem hz
  simp only [hrel]
  rfl

theorem boot_modifier_restore (key : Nat) (kb : Keyboard)
    (hk : is_modifier key = true) (hmod : kb.report.modifier < 256)
    (hdisj : kb.report.modifier &&& key_to_modifier_bitfield key = 0) :
    Boot.release key (Boot.press key kb).2 = some (1, kb) := by
  rw [Boot.press, if_pos hk]
  rw [Boot.release, if_pos hk]
  rw [lor_land_not hmod (key_to_modifier_bitfield_lt_256 key hk) hdisj]

theorem nkro_printable_restore (key : Nat) (kb : Keyboard)
    (hp : is_printable key = true)
    (hidx : key_to_index key < kb.report.keycodes.length)
    (hbyte : kb.report.keycodes.getD (key_to_index key) 0 < 256)
    (hdisj : kb.report.keycodes.getD (key_to_index key) 0 &&&
      key_to_printable_bitfield key = 0) :
    (Nkro.press key kb).bind (fun r => Nkro.release key r.2) = some (1, kb) := by
  rw [Nkro.press, if_pos hp, if_pos hidx]
  rw [Option.some_bind]
  rw [Nkro.release, if_pos hp]
  rw [if_pos (by simpa using hidx)]
  rw [getD_set_self hidx,
    lor_land_not hbyte (key_to_printable_bitfield_lt_256 key) hdisj,
    List.set_set, set_getD_self hidx]

theorem nkro_modifier_restore (key : Nat) (kb : Keyboard)
    (hp : is_printable key = false) (hk : is_modifier key = true)
    (hmod : kb.report.modifier < 256)
    (hdisj : kb.report.modifier &&& key_to_modifier_bitfield key = 0) :
    (Nkro.press key kb).bind (fun r => Nkro.release key r.2) = some (1, kb) := by
  rw [Nkro.press, if_neg (fun hc => Bool.noConfusion (hp ▸ hc)), if_pos hk]
  rw [Option.some_bind]
  rw [Nkro.release, if_neg (fun hc => Bool.noConfusion (hp ▸ hc)), if_pos hk]
  rw [lor_land_not hmod (key_to_modifier_bitfield_lt_256 key hk) hdisj]

/-- C8 counterexample: the claim quantifies over every reachable state and
every in-domain key.  The state with key `4` already pressed is reachable
(it is the result of `press(4)` from the default state); on it, the boot
`press(4)` reports handled without changing anything, and the following
`release(4)` removes the key, so the state after press-then-release is the
default state, not the prior one. -/
theorem c8_counterexample_already_pressed :
    ((Boot.press 4 defaultKeyboard).2 =
      { report := { modifier := 0, keycodes := [4, 0, 0, 0, 0, 0] },
        last_report := { modifier := 0, keycodes := ZERO_KEYS } }) ∧
    (Boot.press 4
      { report := { modifier := 0, keycodes := [4, 0, 0, 0, 0, 0] },
        last_report := { modifier := 0, keycodes := ZERO_KEYS } } =
      (1, { report := { modifier := 0, keycodes := [4, 0, 0, 0, 0, 0] },
            last_report := { modifier := 0, keycodes := ZERO_KEYS } })) ∧
    ((Boot.release 4
      { report := { modifier := 0, keycodes := [4, 0, 0, 0, 0, 0] },
        last_report := { modifier := 0, keycodes := ZERO_KEYS } }).map
        (fun r => r.2) = some defaultKeyboard) ∧
    ({ report := { modifier := 0, keycodes := [4, 0, 0, 0, 0, 0] },
       last_report := { modifier := 0, keycodes := ZERO_KEYS } } : Keyboard) ≠
      defaultKeyboard := by
  refine ⟨rfl, rfl, ?_, by decide⟩
  simp [Boot.release, releaseSlots, sort_keycodes, sortLoop, findBack,
    xor_swap, is_modifier, keyboardLeftControl, keyboardRightGUI,
    defaultKeyboard, ZERO_KEYS]

/-- C8 amended: `press(k)` followed by `release(k)` restores the prior
current report provided `k` was *not already pressed* there — for the boot
slot encoding: `k` absent from the (compact, as in every reachable state)
slot array; for a modifier: its mask bit clear; for the NKRO bitfield:
`k` within the range the six-byte array can represent (`k/8` in bounds)
with its bit clear.  Pressing an already-pressed key is absorbed
(press is idempotent) while release still clears it, so the original
claim fails there. -/
theorem c8_round_trip_amended :
    (∀ (key : Nat) (kb : Keyboard),
      is_modifier key = false → kb.report.keycodes ≠ [] →
      key ∉ kb.report.keycodes → ZerosTrailing kb.report.keycodes →
      (Boot.release key (Boot.press key kb).2).map (fun r => r.2) = some kb) ∧
    (∀ (key : Nat) (kb : Keyboard),
      is_modifier key = true → kb.report.modifier < 256 →
      kb.report.modifier &&& key_to_modifier_bitfield key = 0 →
      Boot.release key (Boot.press key kb).2 = some (1, kb)) ∧
    (∀ (key : Nat) (kb : Keyboard),
      is_printable key = true → key_to_index key < kb.report.keycodes.length →
      kb.report.keycodes.getD (key_to_index key) 0 < 256 →
      kb.report.keycodes.getD (key_to_index key) 0 &&&
        key_to_printable_bitfield key = 0 →
      (Nkro.press key kb).bind (fun r => Nkro.release key r.2) = some (1, kb)) ∧
    (∀ (key : Nat) (kb : Keyboard),
      is_printable key = false → is_modifier key = true →
      kb.report.modifier < 256 →
      kb.report.modifier &&& key_to_modifier_bitfield key = 0 →
      (Nkro.press key kb).bind (fun r => Nkro.release key r.2) = some (1, kb)) :=
  ⟨fun key kb hnm hne hmem hz => boot_release_restore key kb hnm hne hmem hz,
   fun key kb hk hmod hdisj => boot_modifier_restore key kb hk hmod hdisj,
   fun key kb hp hidx hbyte hdisj =>
     nkro_printable_restore key kb hp hidx hbyte hdisj,
   fun key kb hp hk hmod hdisj => nkro_modifier_restore key kb hp hk hmod hdisj⟩

/-- C8 witness: the round trip applied at concrete inputs — key `4` and
modifier `0xE1` from the default state, on both encodings. -/
theorem c8_witness :
    ((Boot.release 4 (Boot.press 4 defaultKeyboard).2).map (fun r => r.2) =
      some defaultKeyboard) ∧
    (Boot.release 225 (Boot.press 225 defaultKeyboard).2 =
      some (1, defaultKeyboard)) ∧
    ((Nkro.press 4 defaultKeyboard).bind (fun r => Nkro.release 4 r.2) =
      some (1, defaultKeyboard)) ∧
    ((Nkro.press 225 defaultKeyboard).bind (fun r => Nkro.release 225 r.2) =
      some (1, defaultKeyboard)) :=
  ⟨c8_round_trip_amended.1 4 defaultKeyboard (by decide) (by decide) (by decide)
      zerosTrailing_zero_keys,
   c8_round_trip_amended.2.1 225 defaultKeyboard (by decide) (by decide) (by decide),
   c8_round_trip_amended.2.2.1 4 defaultKeyboard (by decide) (by decide)
      (by decide) (by decide),
   c8_round_trip_amended.2.2.2 225 defaultKeyboard (by decide) (by decide)
      (by decide) (by decide)⟩
